import Mathlib

/-!
Verification of the llm-mux model-capability / thinking-budget pipeline.

Shallow embedding conventions:
* Go strings are modelled as `List Char` (`Str`); `strings.HasSuffix s suf`
  is `suf.isSuffixOf s`, substring containment is `List.isInfixOf`.
* Go `int` / `int64` are modelled as `Int` (the quantities involved —
  budgets, token limits — never approach 2^63 on the inputs considered,
  and no claim is about overflow).
* The model registry (`registry.GetGlobalRegistry().GetModelInfo`) is an
  external read-only table; it is modelled as an arbitrary function
  `Registry := Str → Option ModelInfo`, quantified over in theorems.
* JSON bodies handled through gjson/sjson path reads and writes are
  modelled by records (Claude bodies) or a `Json` tree (Gemini payloads)
  holding exactly the fields those paths touch.
-/

namespace LlmMux

/-- Go strings, modelled as lists of characters. -/
abbrev Str := List Char

/-! ## Registry data model

Embeds the `registry` package types as used by `internal/util` and the
providers translator: `ThinkingBudgets` (per-level budget table, a Go
struct compared against its zero value), `ThinkingSupport` with
`Min`/`Max`/`DefaultLevel`/`Budgets`, and `ModelInfo` with
`MaxCompletionTokens` and optional `Thinking`.  The registry package
itself is outside the visible source; the field set is taken from its
uses in the source and from the spec's data model (§3). -/

/-- `registry.ThinkingBudgets`: level → budget table. A Go struct; the
all-zero value plays the role of "absent". -/
structure ThinkingBudgets where
  Low : Int
  Medium : Int
  High : Int
  Max : Int
deriving DecidableEq, Repr

/-- The Go zero value `registry.ThinkingBudgets{}`. -/
def ThinkingBudgets.zero : ThinkingBudgets := ⟨0, 0, 0, 0⟩

/-- Modelled from the spec: `registry.ThinkingLevel` string constants
(`registry.ThinkingLevelLow` etc.); the registry package source is not
visible, the spec (§3) gives the level enumeration {low, medium, high, max}. -/
def regThinkingLevelLow : Str := "low".data

/-- Modelled from the spec: `registry.ThinkingLevelMedium`. -/
def regThinkingLevelMedium : Str := "medium".data

/-- Modelled from the spec: `registry.ThinkingLevelHigh`. -/
def regThinkingLevelHigh : Str := "high".data

/-- Modelled from the spec: `registry.ThinkingLevelMax`. -/
def regThinkingLevelMax : Str := "max".data

/-- The thinking capability sub-record of a registry entry
(`registry.ThinkingSupport`). `DefaultLevel = []` models the empty
string, i.e. "unset". -/
structure ThinkingSupport where
  Min : Int
  Max : Int
  DefaultLevel : Str
  Budgets : ThinkingBudgets
deriving DecidableEq, Repr

/-- A registry model record (`registry.ModelInfo`): the fields the
embedded code reads. `Thinking = none` models a nil pointer. -/
structure ModelInfo where
  MaxCompletionTokens : Int
  Thinking : Option ThinkingSupport
deriving DecidableEq, Repr

/-- The process-wide model registry, as an abstract lookup
(`registry.GetGlobalRegistry().GetModelInfo`): `none` models a nil result. -/
abbrev Registry := Str → Option ModelInfo

/-! ## `internal/util` thinking.go -/

/-- `util.DefaultThinkingBudget`. -/
def DefaultThinkingBudget : Int := 1024

/-- `util.DefaultThinkingBudgets`: fallback level→budget table. -/
def DefaultThinkingBudgets : ThinkingBudgets :=
  { Low := 1024, Medium := 8192, High := 24576, Max := 32768 }

/-- `util.ThinkingLevelLow` (util's `ThinkingLevel` is a string type). -/
def ThinkingLevelLow : Str := "low".data

/-- `util.ThinkingLevelMedium`. -/
def ThinkingLevelMedium : Str := "medium".data

/-- `util.ThinkingLevelHigh`. -/
def ThinkingLevelHigh : Str := "high".data

/-- `util.ThinkingLevelMax`. -/
def ThinkingLevelMax : Str := "max".data

/-- Go `strings.HasSuffix s suffix`. -/
def hasSuffix (s suffix : Str) : Bool := suffix.isSuffixOf s

/-- `util.ParseThinkingSuffix`: extracts the thinking level from a model
name suffix, returning `(level, is_thinking_model)`.  The level `[]`
(empty string) is the "unset" sentinel. -/
def ParseThinkingSuffix (modelName : Str) : Str × Bool :=
  if hasSuffix modelName "-thinking-max".data then (ThinkingLevelMax, true)
  else if hasSuffix modelName "-thinking-high".data then (ThinkingLevelHigh, true)
  else if hasSuffix modelName "-thinking-medium".data then (ThinkingLevelMedium, true)
  else if hasSuffix modelName "-thinking-low".data then (ThinkingLevelLow, true)
  else if hasSuffix modelName "-thinking".data then (ThinkingLevelMax, true)
  else ([], false)

/-- `util.GetThinkingBudget`: resolves the thinking budget for a model.
Returns `(budget, budget > 0)`.  Mirrors the three-tier priority chain
(user budget, suffix level, registry default level / Min) followed by
Min/Max clamping. -/
def GetThinkingBudget (reg : Registry) (model : Str) (suffixLevel : Str)
    (userBudget : Int) : Int × Bool :=
  match reg model with
  | none => (0, false)
  | some info =>
    match info.Thinking with
    | none => (0, false)
    | some ts =>
      let budget : Int :=
        if userBudget > 0 then
          userBudget
        else if suffixLevel ≠ [] then
          let budgets :=
            if ts.Budgets = ThinkingBudgets.zero then DefaultThinkingBudgets
            else ts.Budgets
          if suffixLevel = ThinkingLevelLow then budgets.Low
          else if suffixLevel = ThinkingLevelMedium then budgets.Medium
          else if suffixLevel = ThinkingLevelHigh then budgets.High
          else if suffixLevel = ThinkingLevelMax then budgets.Max
          else 0
        else
          if ts.DefaultLevel ≠ [] then
            let budgets :=
              if ts.Budgets = ThinkingBudgets.zero then DefaultThinkingBudgets
              else ts.Budgets
            if ts.DefaultLevel = regThinkingLevelLow then budgets.Low
            else if ts.DefaultLevel = regThinkingLevelMedium then budgets.Medium
            else if ts.DefaultLevel = regThinkingLevelHigh then budgets.High
            else if ts.DefaultLevel = regThinkingLevelMax then budgets.Max
            else ts.Min
          else ts.Min
      let budget := if budget < ts.Min ∧ ts.Min > 0 then ts.Min else budget
      let budget := if budget > ts.Max ∧ ts.Max > 0 then ts.Max else budget
      (budget, decide (budget > 0))

/-- The clamping step of `GetThinkingBudget` (its final two `if`s),
factored out so theorems can name the clamped value. -/
def clampBudget (ts : ThinkingSupport) (b : Int) : Int :=
  let b := if b < ts.Min ∧ ts.Min > 0 then ts.Min else b
  if b > ts.Max ∧ ts.Max > 0 then ts.Max else b

/-- The thinking sub-record of `reg model`, when both exist. -/
def thinkingOf (reg : Registry) (model : Str) : Option ThinkingSupport :=
  (reg model).bind ModelInfo.Thinking

/-! ## `internal/translator/providers` thinking config

Claude request bodies are byte strings manipulated through the gjson /
sjson paths `thinking.type`, `thinking.budget_tokens` and `max_tokens`.
They are embedded as a record carrying exactly those fields plus an
opaque remainder `rest` that none of the embedded operations touch.
`none` models an absent field; gjson's `.String()` on a missing path
yields `""` and `.Int()` yields `0`, reproduced by the `getD` defaults
in the accessor functions. -/

/-- The JSON object at path `thinking` of a Claude body. -/
structure ClaudeThinking where
  type : Str
  budget_tokens : Int
deriving DecidableEq, Repr

/-- A Claude request body, restricted to the fields the translator reads
or writes, plus an opaque remainder. -/
structure ClaudeBody where
  thinking : Option ClaudeThinking
  max_tokens : Option Int
  rest : Str
deriving DecidableEq, Repr

/-- gjson read of `thinking.type` as a string (missing → `""`). -/
def ClaudeBody.thinkingType (b : ClaudeBody) : Str :=
  (b.thinking.map ClaudeThinking.type).getD []

/-- gjson read of `thinking.budget_tokens` as an integer (missing → 0). -/
def ClaudeBody.budgetTokens (b : ClaudeBody) : Int :=
  (b.thinking.map ClaudeThinking.budget_tokens).getD 0

/-- gjson read of `max_tokens` as an integer (missing → 0). -/
def ClaudeBody.maxTokensInt (b : ClaudeBody) : Int :=
  b.max_tokens.getD 0

/-- `providers.ThinkingConfig`. -/
structure ThinkingConfig where
  Enabled : Bool
  BudgetTokens : Int
deriving DecidableEq, Repr

/-- `providers.ParseClaudeThinkingFromModel`: extracts a thinking config
from a Claude model name suffix; `none` models a nil pointer result. -/
def ParseClaudeThinkingFromModel (reg : Registry) (modelName : Str) :
    Option ThinkingConfig :=
  if !(ParseThinkingSuffix modelName).2 then none
  else if (GetThinkingBudget reg modelName (ParseThinkingSuffix modelName).1 0).1 ≤ 0 then
    none
  else
    some { Enabled := true
           BudgetTokens := (GetThinkingBudget reg modelName (ParseThinkingSuffix modelName).1 0).1 }

/-- `providers.ThinkingConfig.ApplyToClaude`: applies a thinking config
to a Claude body.  The receiver may be nil (`none`).  If `thinking`
already exists in the body, the body is returned unchanged; otherwise
`thinking.type = "enabled"` and `thinking.budget_tokens` are set. -/
def ApplyToClaude (t : Option ThinkingConfig) (body : ClaudeBody) : ClaudeBody :=
  match t with
  | none => body
  | some t =>
    if !t.Enabled then body
    else if body.thinking.isSome then body
    else { body with thinking := some ⟨"enabled".data, t.BudgetTokens⟩ }

/-- The `MaxCompletionTokens` seen for a model: 0 when the registry has
no entry, the record's field otherwise (the source initialises the
local to 0 and overwrites it when `GetModelInfo` is non-nil). -/
def mctOf (reg : Registry) (model : Str) : Int :=
  match reg model with
  | some info => info.MaxCompletionTokens
  | none => 0

/-- `providers.EnsureClaudeMaxTokens`: ensures `max_tokens` is
sufficient for thinking mode (`max_tokens ≥ budget_tokens + 4000`, or
the model's `MaxCompletionTokens` when positive). -/
def EnsureClaudeMaxTokens (reg : Registry) (modelName : Str)
    (body : ClaudeBody) : ClaudeBody :=
  if body.thinkingType ≠ "enabled".data then body
  else
    let budgetTokens := body.budgetTokens
    if budgetTokens ≤ 0 then body
    else
      let maxTokens := body.maxTokensInt
      let maxCompletionTokens : Int := mctOf reg modelName
      let requiredMaxTokens :=
        if maxCompletionTokens > 0 then maxCompletionTokens
        else budgetTokens + 4000
      if maxTokens < requiredMaxTokens then
        { body with max_tokens := some requiredMaxTokens }
      else body

/-! ## `internal/util` token counting (Gemini payloads)

Gemini payloads are JSON byte strings read through gjson paths
(`contents`, `systemInstruction`, `request.contents`, …); they are
embedded as a JSON tree.  The genai tokenizer
(`tokenizer.NewLocalTokenizer` / `CountTokens`) is an external library:
it is modelled as an abstract constructor `Str → Option Tokenizer`
where a `Tokenizer` maps a content list to `Option Nat` (`none` models
an error result; token totals are counts, hence `Nat`).  The tokenizer
cache is semantically transparent in a sequential model — it always
hands back the tokenizer the constructor produced for the normalized
key — so `getOrCreateTokenizer` is embedded as the constructor applied
to the normalized name. -/

/-- A JSON value. -/
inductive Json where
  | null
  | bool (b : Bool)
  | num (n : Int)
  | str (s : Str)
  | arr (elems : List Json)
  | obj (fields : List (Str × Json))
deriving Repr

/-- One step of a gjson path: object member lookup (first match). -/
def Json.getKey (j : Json) (k : Str) : Option Json :=
  match j with
  | .obj fields => (fields.find? (fun f => f.1 == k)).map Prod.snd
  | _ => none

/-- gjson `Result.String()`: the string form of a JSON leaf (missing /
non-scalar → `""`, numbers and booleans via their textual form). -/
def Json.asString : Json → Str
  | .str s => s
  | .num n => (toString n).data
  | .bool true => "true".data
  | .bool false => "false".data
  | _ => []

/-- gjson string read of an optional value (missing → `""`). -/
def jStr (o : Option Json) : Str :=
  (o.map Json.asString).getD []

/-- A `genai.Content` restricted to what the counter builds: a role and
the text parts (only `parts[*].text` entries are kept). -/
structure GContent where
  role : Str
  parts : List Str
deriving DecidableEq, Repr

/-- `util.parseContent`: parses a JSON value into a content record.
Non-array `parts` or no surviving text parts → `none` (nil). -/
def parseContent (value : Json) (role : Str) : Option GContent :=
  match value.getKey "parts".data with
  | some (.arr parts) =>
    let texts := parts.filterMap (fun part =>
      (part.getKey "text".data).map Json.asString)
    if texts.isEmpty then none
    else some { role := role, parts := texts }
  | _ => none

/-- `util.extractContentsFromPayload`: extracts content records from a
Gemini request payload, supporting the native schema (`contents`,
`systemInstruction` at the root) and the wrapped schema
(`request.contents`, `request.systemInstruction`); the wrapped schema
is selected iff the path `request.contents` exists. -/
def extractContentsFromPayload (payload : Json) : List GContent :=
  let wrapped :=
    ((payload.getKey "request".data).bind (·.getKey "contents".data)).isSome
  let contentsVal :=
    if wrapped then (payload.getKey "request".data).bind (·.getKey "contents".data)
    else payload.getKey "contents".data
  let systemVal :=
    if wrapped then (payload.getKey "request".data).bind (·.getKey "systemInstruction".data)
    else payload.getKey "systemInstruction".data
  let sys : List GContent :=
    match systemVal with
    | some si => (parseContent si "user".data).toList
    | none => []
  match contentsVal with
  | some (.arr elems) =>
    sys ++ elems.filterMap (fun value =>
      let role := jStr (value.getKey "role".data)
      let role := if role = [] then "user".data else role
      parseContent value role)
  | _ => sys

/-- The detection condition for the wrapped (Antigravity/GeminiCLI)
schema: the path `request.contents` exists in the payload. -/
def usesWrappedSchema (payload : Json) : Bool :=
  ((payload.getKey "request".data).bind (·.getKey "contents".data)).isSome

/-- `util.containsAny`: substring containment against any of the given
substrings (the source's index loop is exactly substring containment). -/
def containsAny (s : Str) (substrs : List Str) : Bool :=
  substrs.any (fun sub => decide (sub <:+: s))

/-- `util.normalizeModelForTokenizer`: maps model names to
tokenizer-compatible names by ordered substring matching. -/
def normalizeModelForTokenizer (model : Str) : Str :=
  if containsAny model ["gemini-3".data, "gemini-2.5".data, "gemini-2.0".data] then
    "gemini-2.0-flash".data
  else if containsAny model ["gemini-1.5".data] then
    "gemini-1.5-flash".data
  else if containsAny model ["gemini-1.0".data, "gemini-pro".data] then
    "gemini-1.0-pro".data
  else
    "gemini-2.0-flash".data

/-- An abstract tokenizer: counts tokens of a content list, `none`
modelling a count error. -/
abbrev Tokenizer := List GContent → Option Nat

/-- An abstract tokenizer constructor (`tokenizer.NewLocalTokenizer`):
`none` models a construction error. -/
abbrev TokenizerCtor := Str → Option Tokenizer

/-- `util.CountTokensFromGeminiRequest`: counts tokens from a Gemini
request payload; returns 0 on any failure (construction error, no
contents, count error) instead of propagating it. -/
def CountTokensFromGeminiRequest (newTok : TokenizerCtor) (model : Str)
    (payload : Json) : Int :=
  match newTok (normalizeModelForTokenizer model) with
  | none => 0
  | some tok =>
    let contents := extractContentsFromPayload payload
    if contents.length = 0 then 0
    else
      match tok contents with
      | none => 0
      | some r => (r : Int)

/-! ## `internal/auth/login` Claude login flow

`ClaudeAuthenticator.Login` interleaves pure control flow with external
effects (PKCE generation, random state, URL building, the stdin
scanner, the token exchange, token-storage construction).  Each effect
is modelled by a field of `LoginEnv` giving its outcome, and the
function is embedded as the pure control flow over those outcomes.  The
returned `Bool` records whether the code-for-tokens exchange was
reached (`ExchangeCodeForTokens` called), which the source performs
only after a non-empty code was read.  Browser opening and printing are
pure I/O with no influence on the result and are not modelled. -/

/-- PKCE verifier/challenge pair (`claude.GeneratePKCECodes` result). -/
structure PKCECodes where
  verifier : Str
  challenge : Str
deriving DecidableEq, Repr

/-- The bundle returned by the code-for-tokens exchange. -/
structure TokenBundle where
  APIKey : Str
deriving DecidableEq, Repr

/-- Token storage produced by `CreateTokenStorage`; carries the
principal (`Email`). -/
structure TokenStorage where
  Email : Str
deriving DecidableEq, Repr

/-- Outcome of `bufio.Scanner.Scan()` at the authorisation-code prompt:
a line was read, stdin closed without error, or the scanner errored. -/
inductive ScanOutcome where
  | line (text : Str)
  | closedClean
  | closedErr
deriving DecidableEq, Repr

/-- The external-effect outcomes `Login` consumes, in source order. -/
structure LoginEnv where
  cfgPresent : Bool
  pkce : Option PKCECodes
  stateGen : Option Str
  genAuthURL : Str → PKCECodes → Option (Str × Str)
  scan : ScanOutcome
  exchange : Str → Str → PKCECodes → Except Str TokenBundle
  createTokenStorage : TokenBundle → Option TokenStorage

/-- The error sites of `ClaudeAuthenticator.Login`, one constructor per
`return nil, err` in the source. -/
inductive LoginError where
  | configMissing
  | pkceFailed
  | stateFailed
  | urlFailed
  | readFailed
  | noCode
  | emptyCode
  | exchangeFailed (cause : Str)
  | storageMissing
deriving DecidableEq, Repr

/-- Modelled from the spec: the §7 error-kind taxonomy's
"user input missing/empty" kind, covering the three scanner-prompt
failure sites (scanner error, closed stdin, empty code). -/
def LoginError.isUserInputMissing : LoginError → Bool
  | .readFailed => true
  | .noCode => true
  | .emptyCode => true
  | _ => false

/-- The credential bundle (`provider.Auth`) as built by the Claude
login: id, provider tag, file name and the `email` metadata entry. -/
structure Auth where
  ID : Str
  Provider : Str
  FileName : Str
  Email : Str
deriving DecidableEq, Repr

/-- Go `strings.TrimSpace`. -/
def trimSpace (s : Str) : Str :=
  ((s.dropWhile Char.isWhitespace).reverse.dropWhile Char.isWhitespace).reverse

/-- `ClaudeAuthenticator.Login`: the pure control flow of the Claude
login over the external-effect outcomes in `env`.  Returns the result
and whether the code-for-tokens exchange was attempted. -/
def ClaudeLogin (env : LoginEnv) : Except LoginError Auth × Bool :=
  if !env.cfgPresent then (.error .configMissing, false)
  else
    match env.pkce with
    | none => (.error .pkceFailed, false)
    | some pkceCodes =>
      match env.stateGen with
      | none => (.error .stateFailed, false)
      | some state0 =>
        match env.genAuthURL state0 pkceCodes with
        | none => (.error .urlFailed, false)
        | some (_authURL, returnedState) =>
          match env.scan with
          | .closedErr => (.error .readFailed, false)
          | .closedClean => (.error .noCode, false)
          | .line text =>
            let code := trimSpace text
            if code = [] then (.error .emptyCode, false)
            else
              match env.exchange code returnedState pkceCodes with
              | .error cause => (.error (.exchangeFailed cause), true)
              | .ok bundle =>
                match env.createTokenStorage bundle with
                | none => (.error .storageMissing, true)
                | some ts =>
                  if ts.Email = [] then (.error .storageMissing, true)
                  else
                    let fileName := "claude-".data ++ ts.Email ++ ".json".data
                    (.ok { ID := fileName, Provider := "claude".data,
                           FileName := fileName, Email := ts.Email }, true)

/-! ## `internal/misc` credentials.go

`LogSavingCredentials` prints
`"Saving credentials to to " + strings.Replace(filepath.Clean(path), os.Getenv("HOME"), "~", 1)`.
`filepath.Clean` (Go standard library, Unix rules) is embedded by its
documented lexical algorithm: split on `/`, drop empty and `.` elements,
resolve `..` against the element stack (dropping rooted `..`), rejoin.
`strings.Replace(s, old, new, 1)` replaces the first occurrence of
`old` (for empty `old` it inserts `new` before the string).  `$HOME` is
the `home` parameter. -/

/-- One step of path cleaning: push an element onto the stack,
resolving `..`. -/
def cleanStep (rooted : Bool) (stack : List Str) (e : Str) : List Str :=
  if e = "..".data then
    match stack with
    | top :: below => if top = "..".data then e :: stack else below
    | [] => if rooted then [] else [e]
  else e :: stack

/-- Go `path/filepath.Clean` (Unix): lexical simplification of a path. -/
def cleanPath (path : Str) : Str :=
  if path = [] then ".".data
  else
    let rooted := path.head? = some '/'
    let elems := (List.splitOn '/' path).filter
      (fun e => !e.isEmpty && e != ".".data)
    let stack := (elems.foldl (cleanStep rooted) []).reverse
    let joined := List.intercalate "/".data stack
    if rooted then '/' :: joined
    else if joined = [] then ".".data
    else joined

/-- Replacement of the first occurrence, scanning left to right
(the recursive core of `strings.Replace(s, old, new, 1)`, `old ≠ ""`). -/
def replaceFirstCore (old new : Str) : Str → Str
  | [] => []
  | c :: rest =>
    if old.isPrefixOf (c :: rest) then new ++ (c :: rest).drop old.length
    else c :: replaceFirstCore old new rest

/-- Go `strings.Replace(s, old, new, 1)`. -/
def replaceFirst (s old new : Str) : Str :=
  if old = [] then new ++ s
  else replaceFirstCore old new s

/-- The path as displayed by `LogSavingCredentials`:
`strings.Replace(filepath.Clean(path), home, "~", 1)`. -/
def displayPath (home path : Str) : Str :=
  replaceFirst (cleanPath path) home "~".data

/-- `misc.LogSavingCredentials`: the line printed for a credential
path (`none` when the path is empty and nothing is printed). -/
def LogSavingCredentials (home path : Str) : Option Str :=
  if path = [] then none
  else some ("Saving credentials to to ".data ++ displayPath home path ++ "\n".data)

/-- Follows the spec's words, for comparison with `displayPath`: the
cleaned path rewritten by replacing the home-directory **prefix** with
`~`. -/
def displayPathSpec (home path : Str) : Str :=
  let c := cleanPath path
  if home ≠ [] ∧ home.isPrefixOf c then "~".data ++ c.drop home.length
  else c

/-! ## Concrete instances used by witnesses and counterexamples -/

/-- A thinking sub-record with bounds 100..200 and nothing else set. -/
def tsW : ThinkingSupport :=
  { Min := 100, Max := 200, DefaultLevel := [], Budgets := ThinkingBudgets.zero }

/-- A registry holding one thinking-capable model `"m"`. -/
def regW : Registry :=
  fun n => if n = "m".data then some { MaxCompletionTokens := 0, Thinking := some tsW } else none

/-- A registry holding one model `"m"` with `MaxCompletionTokens = 8192`
and no thinking record. -/
def regMct : Registry :=
  fun n => if n = "m".data then some { MaxCompletionTokens := 8192, Thinking := none } else none

/-- A Claude body with thinking enabled, budget 100 and `max_tokens`
9000 (already above `regMct`'s completion limit). -/
def bodyMct : ClaudeBody :=
  { thinking := some { type := "enabled".data, budget_tokens := 100 },
    max_tokens := some 9000, rest := [] }

/-- The field list of a small native Gemini payload: one user content
with a single text part `"hi"`. -/
def geminiFieldsW : List (Str × Json) :=
  [("contents".data,
    Json.arr [Json.obj [("role".data, Json.str "user".data),
      ("parts".data, Json.arr [Json.obj [("text".data, Json.str "hi".data)]])]])]

/-- A tokenizer constructor that always succeeds and counts contents. -/
def tokCtorW : TokenizerCtor :=
  fun _ => some (fun cs => some cs.length)

/-- A login environment that reaches the authorisation-code prompt and
finds stdin closed. -/
def envW : LoginEnv :=
  { cfgPresent := true, pkce := some ⟨[], []⟩, stateGen := some [],
    genAuthURL := fun _ _ => some ([], []), scan := .closedClean,
    exchange := fun _ _ _ => .error [], createTokenStorage := fun _ => none }

/-! ## Helper lemmas -/

/-- A string is a suffix of anything it is appended to. -/
lemma hasSuffix_append (base t : Str) : hasSuffix (base ++ t) t = true := by
  simp [hasSuffix, List.isSuffixOf_iff_suffix]

/-- If `s` and `t` are not suffixes of one another, `s` is not a suffix
of `base ++ t` for any `base`: two suffixes of one list are always
comparable. -/
lemma hasSuffix_append_ne (base s t : Str) (h1 : ¬ s <:+ t) (h2 : ¬ t <:+ s) :
    hasSuffix (base ++ t) s = false := by
  have h : ¬ s <:+ base ++ t := fun hs =>
    (List.suffix_or_suffix_of_suffix hs (List.suffix_append base t)).elim h1 h2
  cases hfb : hasSuffix (base ++ t) s with
  | false => rfl
  | true =>
    exact absurd (List.isSuffixOf_iff_suffix.mp (by simpa [hasSuffix] using hfb)) h

/-- Any name ending in `-thinking-low` parses to `(low, true)`. -/
lemma parse_append_low (base : Str) :
    ParseThinkingSuffix (base ++ "-thinking-low".data) = (ThinkingLevelLow, true) := by
  simp [ParseThinkingSuffix,
    hasSuffix_append_ne base "-thinking-max".data "-thinking-low".data
      (by decide) (by decide),
    hasSuffix_append_ne base "-thinking-high".data "-thinking-low".data
      (by decide) (by decide),
    hasSuffix_append_ne base "-thinking-medium".data "-thinking-low".data
      (by decide) (by decide),
    hasSuffix_append base "-thinking-low".data]

/-- Any name ending in `-thinking-medium` parses to `(medium, true)`. -/
lemma parse_append_medium (base : Str) :
    ParseThinkingSuffix (base ++ "-thinking-medium".data) = (ThinkingLevelMedium, true) := by
  simp [ParseThinkingSuffix,
    hasSuffix_append_ne base "-thinking-max".data "-thinking-medium".data
      (by decide) (by decide),
    hasSuffix_append_ne base "-thinking-high".data "-thinking-medium".data
      (by decide) (by decide),
    hasSuffix_append base "-thinking-medium".data]

/-- Any name ending in `-thinking-high` parses to `(high, true)`. -/
lemma parse_append_high (base : Str) :
    ParseThinkingSuffix (base ++ "-thinking-high".data) = (ThinkingLevelHigh, true) := by
  simp [ParseThinkingSuffix,
    hasSuffix_append_ne base "-thinking-max".data "-thinking-high".data
      (by decide) (by decide),
    hasSuffix_append base "-thinking-high".data]

/-- Any name ending in `-thinking-max` parses to `(max, true)`. -/
lemma parse_append_max (base : Str) :
    ParseThinkingSuffix (base ++ "-thinking-max".data) = (ThinkingLevelMax, true) := by
  simp [ParseThinkingSuffix, hasSuffix_append base "-thinking-max".data]

/-- Any name ending in bare `-thinking` parses to `(max, true)`. -/
lemma parse_append_bare (base : Str) :
    ParseThinkingSuffix (base ++ "-thinking".data) = (ThinkingLevelMax, true) := by
  simp [ParseThinkingSuffix,
    hasSuffix_append_ne base "-thinking-max".data "-thinking".data
      (by decide) (by decide),
    hasSuffix_append_ne base "-thinking-high".data "-thinking".data
      (by decide) (by decide),
    hasSuffix_append_ne base "-thinking-medium".data "-thinking".data
      (by decide) (by decide),
    hasSuffix_append_ne base "-thinking-low".data "-thinking".data
      (by decide) (by decide),
    hasSuffix_append base "-thinking".data]

/-- When `old` is a non-empty prefix of `s`, first-occurrence
replacement rewrites that prefix. -/
lemma replaceFirstCore_of_pre (old new s : Str) (hold : old ≠ [])
    (h : old.isPrefixOf s = true) :
    replaceFirstCore old new s = new ++ s.drop old.length := by
  cases s with
  | nil =>
    cases old with
    | nil => exact absurd rfl hold
    | cons c cs => simp [List.isPrefixOf] at h
  | cons c rest =>
    unfold replaceFirstCore
    rw [if_pos h]

/-! ## Claims -/

/-- C1: for every model whose registry record has a thinking sub-record
and every suffix level, a caller-supplied `user_budget > 0` makes
`GetThinkingBudget` return that budget clamped to the model's bounds
(raised to `Min` when `Min > 0` and the budget is below it, lowered to
`Max` when `Max > 0` and the budget is above it), independent of the
suffix level, paired with the flag `budget > 0`. -/
theorem c1_user_budget_clamped (reg : Registry) (model : Str) (info : ModelInfo)
    (ts : ThinkingSupport) (suffixLevel : Str) (userBudget : Int)
    (hreg : reg model = some info) (hts : info.Thinking = some ts)
    (hub : userBudget > 0) :
    GetThinkingBudget reg model suffixLevel userBudget =
      (clampBudget ts userBudget, decide (clampBudget ts userBudget > 0)) := by
  simp only [GetThinkingBudget, hreg, hts, clampBudget, if_pos hub]

/-- Witness for C1: budget 500 against bounds 100..200 is lowered to
200 and reported as thinking. -/
theorem c1_witness : GetThinkingBudget regW "m".data [] 500 = (200, true) := by
  rw [c1_user_budget_clamped regW "m".data
    { MaxCompletionTokens := 0, Thinking := some tsW } tsW [] 500 (by decide) rfl (by decide)]
  decide

/-- C3 (amended): for every base name, `base ++ "-thinking-" ++ L`
parses to `(L, true)` for each level `L`, and bare `base ++ "-thinking"`
parses to `(max, true)`; matching is case-sensitive (`-Thinking-low`
does not match).  The parser returns only the level and the flag — it
does not strip the suffix or return the base name
(see `c3_counterexample`). -/
theorem c3_suffix_parse (base : Str) :
    ParseThinkingSuffix (base ++ "-thinking-low".data) = (ThinkingLevelLow, true)
    ∧ ParseThinkingSuffix (base ++ "-thinking-medium".data) = (ThinkingLevelMedium, true)
    ∧ ParseThinkingSuffix (base ++ "-thinking-high".data) = (ThinkingLevelHigh, true)
    ∧ ParseThinkingSuffix (base ++ "-thinking-max".data) = (ThinkingLevelMax, true)
    ∧ ParseThinkingSuffix (base ++ "-thinking".data) = (ThinkingLevelMax, true)
    ∧ ParseThinkingSuffix "model-Thinking-low".data = ([], false) :=
  ⟨parse_append_low base, parse_append_medium base, parse_append_high base,
   parse_append_max base, parse_append_bare base, by decide⟩

/-- Counterexample for C3 as stated: the claim has the parser yielding
the stripped base name, but the parser's output is identical for two
different base names, so no component of it is (or determines) the
base. -/
theorem c3_counterexample :
    ParseThinkingSuffix "a-thinking-low".data = ParseThinkingSuffix "b-thinking-low".data
    ∧ "a".data ≠ "b".data := by decide

/-- C4: `ApplyToClaude` is idempotent (a second application with the
same config is a no-op: the first leaves `thinking` present, which the
second honours), and `EnsureClaudeMaxTokens` with the same model is
likewise idempotent. -/
theorem c4_translator_idempotent :
    (∀ (t : Option ThinkingConfig) (b : ClaudeBody),
      ApplyToClaude t (ApplyToClaude t b) = ApplyToClaude t b)
    ∧ (∀ (reg : Registry) (model : Str) (b : ClaudeBody),
      EnsureClaudeMaxTokens reg model (EnsureClaudeMaxTokens reg model b) =
        EnsureClaudeMaxTokens reg model b) := by
  constructor
  · intro t b
    match t with
    | none => rfl
    | some t =>
      by_cases he : t.Enabled
      · by_cases hb : b.thinking.isSome
        · simp [ApplyToClaude, he, hb]
        · simp [ApplyToClaude, he, hb]
      · simp [ApplyToClaude, he]
  · intro reg model b
    by_cases h1 : b.thinkingType = "enabled".data
    · by_cases h2 : b.budgetTokens ≤ 0
      · have e1 : EnsureClaudeMaxTokens reg model b = b := by
          unfold EnsureClaudeMaxTokens
          simp [h1, h2]
        rw [e1]; exact e1
      · set R : Int := if mctOf reg model > 0 then mctOf reg model
          else b.budgetTokens + 4000 with hR
        by_cases h3 : b.maxTokensInt < R
        · have e1 : EnsureClaudeMaxTokens reg model b = { b with max_tokens := some R } := by
            unfold EnsureClaudeMaxTokens
            simp [h1, h2, ← hR, h3]
          rw [e1]
          have t1 : ({ b with max_tokens := some R } : ClaudeBody).thinkingType
              = b.thinkingType := rfl
          have t2 : ({ b with max_tokens := some R } : ClaudeBody).budgetTokens
              = b.budgetTokens := rfl
          have t3 : ({ b with max_tokens := some R } : ClaudeBody).maxTokensInt = R := rfl
          unfold EnsureClaudeMaxTokens
          simp [t1, t2, t3, h1, h2, ← hR]
        · have e1 : EnsureClaudeMaxTokens reg model b = b := by
            unfold EnsureClaudeMaxTokens
            simp [h1, h2, ← hR, h3]
          rw [e1]; exact e1
    · have e1 : EnsureClaudeMaxTokens reg model b = b := by
        unfold EnsureClaudeMaxTokens
        simp [h1]
      rw [e1]; exact e1

/-- C2 (amended): after `EnsureClaudeMaxTokens` on a body with
`thinking.type = "enabled"` and `budget_tokens = B > 0`, the resulting
`max_tokens` is at least `B + 4000` when `max_completion_tokens` is
unknown (zero or model absent), and equals the larger of the original
`max_tokens` and `max_completion_tokens` when the latter is positive
(the function only ever raises `max_tokens`, it does not lower an
already larger value to `max_completion_tokens`). -/
theorem c2_ensure_max_tokens_bounds (reg : Registry) (model : Str) (b : ClaudeBody)
    (hty : b.thinkingType = "enabled".data) (hb : b.budgetTokens > 0) :
    ((reg model = none ∨ mctOf reg model = 0) →
      (EnsureClaudeMaxTokens reg model b).maxTokensInt ≥ b.budgetTokens + 4000)
    ∧ (mctOf reg model > 0 →
      (EnsureClaudeMaxTokens reg model b).maxTokensInt =
        max b.maxTokensInt (mctOf reg model)) := by
  have hb' : ¬ b.budgetTokens ≤ 0 := not_le.mpr hb
  constructor
  · intro hmct
    have hmct0 : mctOf reg model = 0 := by
      rcases hmct with h | h
      · simp [mctOf, h]
      · exact h
    unfold EnsureClaudeMaxTokens
    simp [hty, hmct0, hb', ClaudeBody.maxTokensInt]
    split_ifs with h3
    · simp
    · omega
  · intro hmct
    unfold EnsureClaudeMaxTokens
    simp [hty, hmct, hb', ClaudeBody.maxTokensInt]
    split_ifs with h3
    · rw [max_eq_right (le_of_lt h3)]
      simp
    · rw [max_eq_left (not_lt.mp h3)]

/-- Counterexample for C2 as stated: with `max_completion_tokens =
8192 > 0`, thinking enabled and budget `100 > 0`, a body whose
`max_tokens` is already `9000` keeps it — the claim's equality
`max_tokens = max_completion_tokens` fails. -/
theorem c2_counterexample :
    bodyMct.thinkingType = "enabled".data ∧ bodyMct.budgetTokens > 0
    ∧ mctOf regMct "m".data = 8192
    ∧ (EnsureClaudeMaxTokens regMct "m".data bodyMct).maxTokensInt = 9000
    ∧ (EnsureClaudeMaxTokens regMct "m".data bodyMct).maxTokensInt ≠
        mctOf regMct "m".data := by
  decide

/-- Witness for C2: the amended theorem applied to `bodyMct` under
`regMct` (positive completion limit). -/
theorem c2_witness :
    (EnsureClaudeMaxTokens regMct "m".data bodyMct).maxTokensInt =
      max bodyMct.maxTokensInt (mctOf regMct "m".data) :=
  (c2_ensure_max_tokens_bounds regMct "m".data bodyMct (by decide) (by decide)).2
    (by decide)

/-- C5: for a valid native Gemini payload — an object whose `contents`
member is an array and which has no `request` member — wrapping it
under `{"request": ...}` extracts the same contents and hence yields
the same token count for every model and tokenizer; and the wrapped
schema is selected exactly when the path `request.contents` exists
(true for the wrapper, false for the native form). -/
theorem c5_wrapped_schema_equiv (fields : List (Str × Json)) (xs : List Json)
    (newTok : TokenizerCtor) (model : Str)
    (hc : (Json.obj fields).getKey "contents".data = some (Json.arr xs))
    (hr : (Json.obj fields).getKey "request".data = none) :
    extractContentsFromPayload (Json.obj [("request".data, Json.obj fields)]) =
      extractContentsFromPayload (Json.obj fields)
    ∧ CountTokensFromGeminiRequest newTok model
        (Json.obj [("request".data, Json.obj fields)]) =
      CountTokensFromGeminiRequest newTok model (Json.obj fields)
    ∧ usesWrappedSchema (Json.obj [("request".data, Json.obj fields)]) = true
    ∧ usesWrappedSchema (Json.obj fields) = false := by
  have hwrap : (Json.obj [("request".data, Json.obj fields)]).getKey "request".data =
      some (Json.obj fields) := by
    simp [Json.getKey, List.find?]
  have hext : extractContentsFromPayload (Json.obj [("request".data, Json.obj fields)]) =
      extractContentsFromPayload (Json.obj fields) := by
    unfold extractContentsFromPayload
    simp [hwrap, hc, hr]
  refine ⟨hext, ?_, ?_, ?_⟩
  · unfold CountTokensFromGeminiRequest
    rw [hext]
  · simp [usesWrappedSchema, hwrap, hc]
  · simp [usesWrappedSchema, hr]

/-- Witness for C5: a one-content payload counted by a
length-counting tokenizer gives the same count wrapped and native. -/
theorem c5_witness :
    CountTokensFromGeminiRequest tokCtorW "gemini-3-pro".data
        (Json.obj [("request".data, Json.obj geminiFieldsW)]) =
      CountTokensFromGeminiRequest tokCtorW "gemini-3-pro".data (Json.obj geminiFieldsW)
    ∧ usesWrappedSchema (Json.obj [("request".data, Json.obj geminiFieldsW)]) = true :=
  ⟨(c5_wrapped_schema_equiv geminiFieldsW _ tokCtorW "gemini-3-pro".data rfl rfl).2.1,
   (c5_wrapped_schema_equiv geminiFieldsW _ tokCtorW "gemini-3-pro".data rfl rfl).2.2.1⟩

/-- C6: for every tokenizer constructor, model name and payload,
`CountTokensFromGeminiRequest` returns a non-negative integer (it is a
total function, so it terminates), and on a tokenizer-construction
error or a count error it returns 0 — the error is never propagated
(the return type carries no error). -/
theorem c6_count_tokens_safe (newTok : TokenizerCtor) (model : Str) (payload : Json) :
    0 ≤ CountTokensFromGeminiRequest newTok model payload
    ∧ (newTok (normalizeModelForTokenizer model) = none →
        CountTokensFromGeminiRequest newTok model payload = 0)
    ∧ (∀ tok, newTok (normalizeModelForTokenizer model) = some tok →
        tok (extractContentsFromPayload payload) = none →
        CountTokensFromGeminiRequest newTok model payload = 0) := by
  unfold CountTokensFromGeminiRequest
  cases hctor : newTok (normalizeModelForTokenizer model) with
  | none => simp
  | some tok =>
    refine ⟨?_, by simp, ?_⟩
    · by_cases hlen : (extractContentsFromPayload payload).length = 0
      · simp [hlen]
      · simp only [hlen, if_false]
        cases tok (extractContentsFromPayload payload) with
        | none => simp
        | some r => simp
    · intro tok' htok' hcount
      have heq : tok' = tok := (Option.some.inj htok').symm
      subst heq
      simp [hcount]

/-- Witness for C6: a failing constructor yields 0, a non-negative
count. -/
theorem c6_witness :
    0 ≤ CountTokensFromGeminiRequest (fun _ => none) "m".data Json.null
    ∧ CountTokensFromGeminiRequest (fun _ => none) "m".data Json.null = 0 :=
  ⟨(c6_count_tokens_safe (fun _ => none) "m".data Json.null).1,
   (c6_count_tokens_safe (fun _ => none) "m".data Json.null).2.1 rfl⟩

/-- C7: the suffix parser's output carries no base name (two names with
different bases parse identically); `GetThinkingBudget` looks the full,
possibly suffixed, name up in the registry, returning `(0, false)`
whenever that name has no thinking record; and consequently
`ParseClaudeThinkingFromModel` yields a config (with positive budget)
only when the registry has a thinking-capable entry keyed by the
suffixed name itself. -/
theorem c7_full_name_lookup :
    (∀ a b : Str, ParseThinkingSuffix (a ++ "-thinking-low".data) =
        ParseThinkingSuffix (b ++ "-thinking-low".data))
    ∧ (∀ (reg : Registry) (model suffixLevel : Str) (userBudget : Int),
        thinkingOf reg model = none →
        GetThinkingBudget reg model suffixLevel userBudget = (0, false))
    ∧ (∀ (reg : Registry) (name : Str) (cfg : ThinkingConfig),
        ParseClaudeThinkingFromModel reg name = some cfg →
        (thinkingOf reg name).isSome = true ∧ 0 < cfg.BudgetTokens) := by
  have hzero : ∀ (reg : Registry) (model suffixLevel : Str) (userBudget : Int),
      thinkingOf reg model = none →
      GetThinkingBudget reg model suffixLevel userBudget = (0, false) := by
    intro reg model suffixLevel userBudget h
    unfold thinkingOf at h
    unfold GetThinkingBudget
    cases hreg : reg model with
    | none => rfl
    | some info =>
      rw [hreg] at h
      simp at h
      simp [h]
  refine ⟨?_, hzero, ?_⟩
  · intro a b
    rw [parse_append_low a, parse_append_low b]
  · intro reg name cfg hparse
    unfold ParseClaudeThinkingFromModel at hparse
    by_cases hp : (ParseThinkingSuffix name).2
    · rw [hp] at hparse
      simp only [Bool.not_true, Bool.false_eq_true, if_false] at hparse
      by_cases hth : (thinkingOf reg name).isSome = true
      · refine ⟨hth, ?_⟩
        by_cases hbud : (GetThinkingBudget reg name (ParseThinkingSuffix name).1 0).1 ≤ 0
        · rw [if_pos hbud] at hparse
          cases hparse
        · rw [if_neg hbud] at hparse
          have hcfg := (Option.some.inj hparse).symm
          rw [hcfg]
          exact lt_of_not_le hbud
      · exfalso
        have hnone : thinkingOf reg name = none := by
          cases hx : thinkingOf reg name with
          | none => rfl
          | some ts => rw [hx] at hth; simp at hth
        have hz := hzero reg name (ParseThinkingSuffix name).1 0 hnone
        rw [hz] at hparse
        simp at hparse
    · rw [Bool.not_eq_true] at hp
      rw [hp] at hparse
      simp at hparse

/-- Witness for C7: a registry with no entries resolves a suffixed name
to `(0, false)`. -/
theorem c7_witness :
    GetThinkingBudget (fun _ => none) "m-thinking".data "max".data 0 = (0, false) :=
  c7_full_name_lookup.2.1 (fun _ => none) "m-thinking".data "max".data 0 rfl

/-- C8: in the Claude login flow (once configuration, PKCE, state and
URL generation have succeeded), a whitespace-only line, a closed stdin
or a scanner error at the authorisation-code prompt each yield an error
of the user-input-missing kind with the code-for-tokens exchange never
attempted; a failing exchange after a non-empty code is instead wrapped
as the exchange-failed authentication error. -/
theorem c8_login_input_errors (env : LoginEnv) (pk : PKCECodes) (st u rs : Str)
    (hcfg : env.cfgPresent = true) (hpk : env.pkce = some pk)
    (hst : env.stateGen = some st) (hurl : env.genAuthURL st pk = some (u, rs)) :
    (∀ text, env.scan = .line text → trimSpace text = [] →
      ClaudeLogin env = (.error .emptyCode, false) ∧
        LoginError.emptyCode.isUserInputMissing = true)
    ∧ (env.scan = .closedClean →
      ClaudeLogin env = (.error .noCode, false) ∧
        LoginError.noCode.isUserInputMissing = true)
    ∧ (env.scan = .closedErr →
      ClaudeLogin env = (.error .readFailed, false) ∧
        LoginError.readFailed.isUserInputMissing = true)
    ∧ (∀ text cause, env.scan = .line text → trimSpace text ≠ [] →
      env.exchange (trimSpace text) rs pk = .error cause →
      ClaudeLogin env = (.error (.exchangeFailed cause), true)) := by
  refine ⟨?_, ?_, ?_, ?_⟩
  · intro text hscan htrim
    refine ⟨?_, rfl⟩
    unfold ClaudeLogin
    simp [hcfg, hpk, hst, hurl, hscan, htrim]
  · intro hscan
    refine ⟨?_, rfl⟩
    unfold ClaudeLogin
    simp [hcfg, hpk, hst, hurl, hscan]
  · intro hscan
    refine ⟨?_, rfl⟩
    unfold ClaudeLogin
    simp [hcfg, hpk, hst, hurl, hscan]
  · intro text cause hscan htrim hex
    unfold ClaudeLogin
    simp [hcfg, hpk, hst, hurl, hscan, htrim, hex]

/-- Witness for C8: a login environment whose scanner finds stdin
closed errors out before any exchange. -/
theorem c8_witness :
    ClaudeLogin envW = (.error .noCode, false) ∧
      LoginError.noCode.isUserInputMissing = true :=
  (c8_login_input_errors envW ⟨[], []⟩ [] [] [] rfl rfl rfl rfl).2.1 rfl

/-- C9 (amended): for every non-empty credential path, the displayed
path is the cleaned path with the **first occurrence** of `$HOME`
replaced by `~`; in particular, when the cleaned path starts with a
non-empty `$HOME`, that prefix is replaced by `~`.  (The replacement is
not restricted to the prefix position — see `c9_counterexample`.) -/
theorem c9_home_replacement (home path : Str)
    (hpath : path ≠ []) (hhome : home ≠ [])
    (hpre : home.isPrefixOf (cleanPath path) = true) :
    LogSavingCredentials home path =
      some ("Saving credentials to to ".data ++
        ('~' :: (cleanPath path).drop home.length) ++ "\n".data) := by
  unfold LogSavingCredentials
  rw [if_neg hpath]
  unfold displayPath replaceFirst
  rw [if_neg hhome]
  rw [replaceFirstCore_of_pre home "~".data (cleanPath path) hhome hpre]
  rfl

/-- Counterexample for C9 as stated: for `$HOME = /home/u` and the
(already clean) path `/srv/home/u/f`, the home directory is not a
prefix of the path, yet the displayed path is `/srv~/f` — the code
replaces the first occurrence anywhere, not the prefix, so it differs
from the spec's prefix rewriting. -/
theorem c9_counterexample :
    displayPath "/home/u".data "/srv/home/u/f".data ≠
      displayPathSpec "/home/u".data "/srv/home/u/f".data
    ∧ LogSavingCredentials "/home/u".data "/srv/home/u/f".data =
      some "Saving credentials to to /srv~/f\n".data := by
  decide

/-- Witness for C9: a path under the home directory is displayed with
`~` in place of the home prefix. -/
theorem c9_witness :
    LogSavingCredentials "/home/u".data "/home/u/cred.json".data =
      some ("Saving credentials to to ".data ++
        ('~' :: (cleanPath "/home/u/cred.json".data).drop "/home/u".data.length) ++
        "\n".data) :=
  c9_home_replacement "/home/u".data "/home/u/cred.json".data
    (by decide) (by decide) (by decide)

end LlmMux
